import Mathlib

/-!
Shallow embedding of `linkcheck/checker/consumer.py` (class `Consumer`),
the URL-consumer orchestrator of the linkchecker crawler.

The Python class owns a module-level lock `_lock`; every method decorated
with `@linkcheck.decorators.synchronized(_lock)` acquires that lock before
its body runs and releases it afterwards.  We embed each method in two
complementary ways:

* as a pure function of the data it reads (oracle inputs stand for the
  results of calls into the external `Cache` and `Threader` collaborators),
  used for functional claims; and
* as the finite trace of observable events (lock operations, collaborator
  calls, logger calls) the method body performs in order, used for
  ordering/temporal claims.

The abort protocol (`Consumer.abort` / `Consumer._abort`) is embedded as a
recursive function over a pool schedule `pool : Nat -> Bool` giving the
result of the i-th `no_more_threads()` poll.
-/

/-- A checkable URL item: the fields of `url_data` that `consumer.py`
reads (`valid`, `cached`, `caching`, `warnings` as `(tag, content)` pairs). -/
structure UrlData where
  valid : Bool
  cached : Bool
  caching : Bool
  warnings : List (String × String)
deriving DecidableEq, Repr

/-- The configuration options `consumer.py` reads in `_log_url`,
`start_log_output` and `end_log_output`.  The primary logger is
`config['logger']`; `fileoutput` is the ordered list of additional sinks,
identified here by numeric ids. -/
structure Config where
  verbose : Bool
  warnings : Bool
  ignorewarnings : List String
  fileoutput : List Nat
deriving DecidableEq, Repr

/-- A logging sink: the primary logger `config['logger']` or the i-th
member of `config['fileoutput']`. -/
inductive Sink where
  | primary : Sink
  | file : Nat → Sink
deriving DecidableEq, Repr

/-- Observable events of a `Consumer` method body, in program order:
lock operations, reads of collaborator state, cache mutations, logger
calls, thread dispatch, and diagnostics. -/
inductive LEvent where
  | acquire : LEvent
  | release : LEvent
  | threaderFinishedRead : LEvent
  | incomingLenRead : LEvent
  | activeThreadsRead : LEvent
  | numberRead : LEvent
  | writeStderr : LEvent
  | incomingAdd : UrlData → Bool → LEvent
  | checkedAdd : UrlData → LEvent
  | inProgressRemove : UrlData → Bool → LEvent
  | logFilterUrl : Sink → UrlData → Bool → LEvent
  | startOutput : Sink → LEvent
  | endOutput : Sink → LEvent
  | startThread : String → LEvent
  | logWarn : LEvent
  | logError : LEvent
deriving DecidableEq, Repr

/-- `@linkcheck.decorators.synchronized(_lock)`: the decorated body runs
between an acquisition and a release of the global lock. -/
def synchronized (body : List LEvent) : List LEvent :=
  LEvent.acquire :: body ++ [LEvent.release]

namespace Consumer

/-- The `for tag, content in url_data.warnings:` loop of `_log_url`:
starts with `has_warnings = False`, sets it to `True` and breaks at the
first tag not in `config["ignorewarnings"]`. -/
def hasWarningsLoop (ignorewarnings : List String) : List (String × String) → Bool
  | [] => false
  | (tag, _) :: rest =>
    if ignorewarnings.contains tag then hasWarningsLoop ignorewarnings rest
    else true

/-- `do_print = self._config["verbose"] or not url_data.valid or
(has_warnings and self._config["warnings"])` in `_log_url`. -/
def do_print (cfg : Config) (u : UrlData) : Bool :=
  cfg.verbose || !u.valid ||
    (hasWarningsLoop cfg.ignorewarnings u.warnings && cfg.warnings)

/-- The logger calls of `_log_url`: `log_filter_url(url_data, do_print)`
on the primary logger, then on every `fileoutput` sink in list order. -/
def log_url_events (cfg : Config) (u : UrlData) : List LEvent :=
  LEvent.logFilterUrl Sink.primary u (do_print cfg u) ::
    cfg.fileoutput.map (fun i => LEvent.logFilterUrl (Sink.file i) u (do_print cfg u))

/-- Body of `Consumer.checked`: `_log_url(url_data)` first, then
`checked_add` if `url_data.caching and not url_data.cached`, else
`in_progress_remove` (without `ignore_missing`). -/
def checked_body (cfg : Config) (u : UrlData) : List LEvent :=
  log_url_events cfg u ++
    [if u.caching && !u.cached then LEvent.checkedAdd u
     else LEvent.inProgressRemove u false]

/-- `Consumer.checked` is `@synchronized(_lock)`. -/
def checked_events (cfg : Config) (u : UrlData) : List LEvent :=
  synchronized (checked_body cfg u)

/-- Body of `Consumer.append_url`: call `self._cache.incoming_add(url_data)`
(`accepted` is its result); if it returned false, `_log_url(url_data)`. -/
def append_url_body (cfg : Config) (u : UrlData) (accepted : Bool) : List LEvent :=
  LEvent.incomingAdd u accepted ::
    (if accepted then [] else log_url_events cfg u)

/-- `Consumer.append_url` is `@synchronized(_lock)`. -/
def append_url_events (cfg : Config) (u : UrlData) (accepted : Bool) : List LEvent :=
  synchronized (append_url_body cfg u accepted)

/-- `Consumer.check_url`: not synchronized; asks the threader to start a
thread running `url_data.check` under the (sanitized) name. -/
def check_url_events (name : String) : List LEvent :=
  [LEvent.startThread name]

/-- Body of `Consumer.finished`: read `self._threader.finished()`, then
`self._cache.incoming_len()`, and combine. -/
def finished_body : List LEvent :=
  [LEvent.threaderFinishedRead, LEvent.incomingLenRead]

/-- `Consumer.finished` is `@synchronized(_lock)`: the decorator acquires
the global lock before the body (and hence before both reads) runs. -/
def finished_events : List LEvent :=
  synchronized finished_body

/-- The value `Consumer.finished` returns, as a function of the two
collaborator reads: `self._threader.finished() and
self._cache.incoming_len() == 0`. -/
def finished_value (threaderFinished : Bool) (incomingLen : Nat) : Bool :=
  threaderFinished && (incomingLen == 0)

/-- Body of `Consumer.print_status`: write `Status:`, then
`print_active(self._threader.active_threads())`,
`print_links(self._number)`, `print_tocheck(self._cache.incoming_len())`,
`print_duration(curtime - start_time)`, then a final newline.  Each
`print_x(arg)` evaluates its argument (a collaborator/state read) before
writing. -/
def print_status_body : List LEvent :=
  [LEvent.writeStderr,
   LEvent.activeThreadsRead, LEvent.writeStderr,
   LEvent.numberRead, LEvent.writeStderr,
   LEvent.incomingLenRead, LEvent.writeStderr,
   LEvent.writeStderr,
   LEvent.writeStderr]

/-- `Consumer.print_status` is `@synchronized(_lock)`. -/
def print_status_events : List LEvent :=
  synchronized print_status_body

/-- Body of `Consumer.start_log_output`: `start_output()` on the primary
logger, then on every `fileoutput` sink in list order. -/
def start_log_output_body (cfg : Config) : List LEvent :=
  LEvent.startOutput Sink.primary ::
    cfg.fileoutput.map (fun i => LEvent.startOutput (Sink.file i))

/-- `Consumer.start_log_output` is `@synchronized(_lock)`. -/
def start_log_output_events (cfg : Config) : List LEvent :=
  synchronized (start_log_output_body cfg)

/-- Body of `Consumer.end_log_output`: `end_output()` on the primary
logger, then on every `fileoutput` sink in list order. -/
def end_log_output_body (cfg : Config) : List LEvent :=
  LEvent.endOutput Sink.primary ::
    cfg.fileoutput.map (fun i => LEvent.endOutput (Sink.file i))

/-- `Consumer.end_log_output` is `@synchronized(_lock)`. -/
def end_log_output_events (cfg : Config) : List LEvent :=
  synchronized (end_log_output_body cfg)

/-- `Consumer.__init__`: after initializing `_number`, `_config`, `_cache`
and `_threader`, it calls `self.start_log_output()` before returning, so
the constructor's observable trace is that of `start_log_output`. -/
def init_events (cfg : Config) : List LEvent :=
  start_log_output_events cfg

/-- Event classifiers used by the ordering claims. -/
def isLogEmission : LEvent → Bool
  | LEvent.logFilterUrl _ _ _ => true
  | _ => false

/-- A cache mutation performed by `Consumer.checked`: `checked_add` or
`in_progress_remove`. -/
def isCheckedMutation : LEvent → Bool
  | LEvent.checkedAdd _ => true
  | LEvent.inProgressRemove _ _ => true
  | _ => false

/-- Dispatch of a worker thread (`self._threader.start_thread`). -/
def isDispatch : LEvent → Bool
  | LEvent.startThread _ => true
  | _ => false

/-- A `start_output` lifecycle call on some sink. -/
def isStartOutput : LEvent → Bool
  | LEvent.startOutput _ => true
  | _ => false

/-- A `log_filter_url` call forwarding item `u` to the primary logger:
the marker of one `_log_url(u)` invocation. -/
def isPrimaryLogOf (u : UrlData) : LEvent → Bool
  | LEvent.logFilterUrl Sink.primary v _ => v == u
  | _ => false

/-! ### The abort protocol (`Consumer.abort` / `Consumer._abort`)

`_abort` loops `while not self.no_more_threads()`.  We model the pool as a
schedule `pool : Nat → Bool` giving the result of the i-th
`no_more_threads()` poll (polls are numbered from 0).  `self.num_waited`
is set to 0 by `abort` before the loop and is incremented by each
non-timeout loop body; the body with `num_waited > 30` emits a fatal
diagnostic, ends log output and returns. -/

/-- Outcome of one complete (uninterrupted) run of `Consumer._abort`:
how many wait bodies (warn + `finish()` + `num_waited += 1` + sleep) ran,
whether it returned through the `num_waited > 30` timeout branch, how many
times `end_log_output` was called, and whether the fatal "Thread wait
timeout" diagnostic was emitted. -/
structure AbortOutcome where
  retries : Nat
  timedOut : Bool
  endOutputs : Nat
  fatalLogged : Bool
deriving DecidableEq, Repr

/-- `Consumer._abort`, started at the `checkIdx`-th poll of the pool with
wait counter `numWaited`:
while `no_more_threads()` is false: if `num_waited > 30`, log the fatal
diagnostic, `end_log_output()` and return; otherwise warn, `finish()`,
increment `num_waited` and sleep.  Once `no_more_threads()` is true,
`end_log_output()` and return. -/
def abortFrom (pool : Nat → Bool) (checkIdx numWaited : Nat) : AbortOutcome :=
  if pool checkIdx then
    ⟨0, false, 1, false⟩
  else if numWaited > 30 then
    ⟨0, true, 1, true⟩
  else
    let r := abortFrom pool (checkIdx + 1) (numWaited + 1)
    ⟨r.retries + 1, r.timedOut, r.endOutputs, r.fatalLogged⟩
termination_by 31 - numWaited
decreasing_by omega

/-- Loop-body iterations of an `_abort` run: the wait bodies plus, on the
timeout path, the final body that performs only the timeout check. -/
def iterations (o : AbortOutcome) : Nat :=
  o.retries + (if o.timedOut then 1 else 0)

/-- The cancellation/termination conditions that `Consumer.abort` catches:
`except (KeyboardInterrupt, SystemExit)`. -/
inductive Signal where
  | keyboardInterrupt : Signal
  | systemExit : Signal
deriving DecidableEq, Repr

/-- One attempt at `_abort` that is interrupted by signal `sig` after `j`
further loop-body steps (if the run completes in fewer steps, no signal
fires and the attempt succeeds).  On interrupt, the error carries the
poll index and `num_waited` reached, since `self.num_waited` is an
attribute and persists across the retry. -/
def abortAttempt (pool : Nat → Bool) (sig : Signal) :
    Nat → Nat → Nat → Except (Signal × Nat × Nat) AbortOutcome
  | 0, checkIdx, numWaited => Except.error (sig, checkIdx, numWaited)
  | j + 1, checkIdx, numWaited =>
    if pool checkIdx then
      Except.ok ⟨0, false, 1, false⟩
    else if numWaited > 30 then
      Except.ok ⟨0, true, 1, true⟩
    else
      match abortAttempt pool sig j (checkIdx + 1) (numWaited + 1) with
      | Except.ok r => Except.ok ⟨r.retries + 1, r.timedOut, r.endOutputs, r.fatalLogged⟩
      | Except.error e => Except.error e

/-- `Consumer.abort`: `self.num_waited = 0`, then `while True: try:
self._abort(); break; except (KeyboardInterrupt, SystemExit): pass`.
`intrs` lists the pending interruptions (step budget and signal kind) of
successive `_abort` attempts; once they are exhausted the final attempt
runs uninterrupted.  Returns the final attempt's outcome together with the
total number of `end_log_output` calls across all attempts.  The
`Except Signal` codomain records whether a signal escapes to the caller. -/
def abortRun (pool : Nat → Bool) :
    List (Nat × Signal) → Nat → Nat → Nat → Except Signal (AbortOutcome × Nat)
  | [], checkIdx, numWaited, endAcc =>
    let o := abortFrom pool checkIdx numWaited
    Except.ok (o, endAcc + o.endOutputs)
  | (j, sig) :: rest, checkIdx, numWaited, endAcc =>
    match abortAttempt pool sig j checkIdx numWaited with
    | Except.ok o => Except.ok (o, endAcc + o.endOutputs)
    | Except.error (s, checkIdx', numWaited') =>
      match s with
      | Signal.keyboardInterrupt => abortRun pool rest checkIdx' numWaited' endAcc
      | Signal.systemExit => abortRun pool rest checkIdx' numWaited' endAcc

/-- The pool schedule on which the pool is never finished. -/
def neverFinished : Nat → Bool := fun _ => false

/-- The pool schedule on which `no_more_threads()` first reports true at
the k-th poll, i.e. the pool finishes after `k` wait iterations. -/
def finishedAfter (k : Nat) : Nat → Bool := fun i => k ≤ i

/-! ### Operation-level model of the logged-item counter (`self._number`)

`_log_url` is the only code that touches `self._number` (it increments it
by 1 at its start).  `Op` enumerates the public operations of `Consumer`;
the `accepted` argument of `appendUrl` is the oracle result of the
Cache's `incoming_add`. -/

/-- Orchestrator-local mutable state: the logged-item counter
`self._number`. -/
structure ConsumerState where
  number : Nat
deriving DecidableEq, Repr

/-- The public operations of `Consumer`. -/
inductive Op where
  | configRead : Op
  | configAppend : Op
  | appendUrl : UrlData → Bool → Op
  | checkUrl : UrlData → String → Op
  | checked : UrlData → Op
  | interrupted : UrlData → Op
  | finishedQuery : Op
  | finish : Op
  | noMoreThreads : Op
  | abortOp : Op
  | printStatus : Op
  | startLogOutput : Op
  | logUrl : UrlData → Op
  | endLogOutput : Op
  | activeThreadsQuery : Op
  | getCountryName : Op
deriving DecidableEq, Repr

/-- `_log_url` begins with `self._number += 1`. -/
def log_url_state (s : ConsumerState) : ConsumerState :=
  ⟨s.number + 1⟩

/-- Effect of one public operation on `self._number`: `checked` and
`log_url` call `_log_url` unconditionally, `append_url` calls it exactly
when `incoming_add` returned false; no other operation touches
`self._number`. -/
def applyOp (s : ConsumerState) : Op → ConsumerState
  | Op.appendUrl _ accepted => if accepted then s else log_url_state s
  | Op.checked _ => log_url_state s
  | Op.logUrl _ => log_url_state s
  | _ => s

/-- Run a sequence of public operations from state `s`. -/
def applyOps (s : ConsumerState) : List Op → ConsumerState
  | [] => s
  | op :: rest => applyOps (applyOp s op) rest

/-- Is this operation a `checked` call? -/
def isChecked : Op → Bool
  | Op.checked _ => true
  | _ => false

/-- Is this operation an `append_url` call whose admission reported a
duplicate (`incoming_add` returned false)? -/
def isAppendDup : Op → Bool
  | Op.appendUrl _ accepted => !accepted
  | _ => false

/-- Is this operation a public `log_url` call? -/
def isLogUrlOp : Op → Bool
  | Op.logUrl _ => true
  | _ => false

/-! ### Helper lemmas about the abort protocol -/

/-- If every poll up to wait counter 31 reports active threads, `_abort`
runs `31 - numWaited` wait bodies and returns through the timeout branch,
logging the fatal diagnostic and ending log output once. -/
theorem abortFrom_timeout (pool : Nat → Bool) :
    ∀ k ci nw, 31 - nw ≤ k → nw ≤ 31 →
      (∀ i, nw + i ≤ 31 → pool (ci + i) = false) →
      abortFrom pool ci nw = ⟨31 - nw, true, 1, true⟩ := by
  intro k
  induction k with
  | zero =>
    intro ci nw h1 h2 hp
    have h3 : nw = 31 := by omega
    subst h3
    have hc : pool ci = false := by simpa using hp 0 (by omega)
    rw [abortFrom]
    simp [hc]
  | succ k ih =>
    intro ci nw h1 h2 hp
    have hc : pool ci = false := by simpa using hp 0 (by omega)
    by_cases h3 : nw > 30
    · have h4 : nw = 31 := by omega
      subst h4
      rw [abortFrom]
      simp [hc]
    · rw [abortFrom]
      simp only [hc, Bool.false_eq_true, if_false, h3, ite_false]
      have hp' : ∀ i, (nw + 1) + i ≤ 31 → pool ((ci + 1) + i) = false := by
        intro i hi
        have heq : ci + 1 + i = ci + (i + 1) := by omega
        rw [heq]
        exact hp (i + 1) (by omega)
      rw [ih (ci + 1) (nw + 1) (by omega) (by omega) hp']
      have h5 : 31 - (nw + 1) + 1 = 31 - nw := by omega
      rw [h5]

/-- If the pool polls false exactly `d` times and then true, and the
timeout is not reached, `_abort` runs `d` wait bodies and terminates
logging normally. -/
theorem abortFrom_normal (pool : Nat → Bool) :
    ∀ d ci nw, nw + d ≤ 31 →
      (∀ i, i < d → pool (ci + i) = false) →
      pool (ci + d) = true →
      abortFrom pool ci nw = ⟨d, false, 1, false⟩ := by
  intro d
  induction d with
  | zero =>
    intro ci nw h1 hp hd
    rw [abortFrom]
    simp at hd
    simp [hd]
  | succ d ih =>
    intro ci nw h1 hp hd
    have hc : pool ci = false := by simpa using hp 0 (by omega)
    have h3 : ¬ nw > 30 := by omega
    rw [abortFrom]
    simp only [hc, Bool.false_eq_true, if_false, h3, ite_false]
    have hp' : ∀ i, i < d → pool ((ci + 1) + i) = false := by
      intro i hi
      have heq : ci + 1 + i = ci + (i + 1) := by omega
      rw [heq]
      exact hp (i + 1) (by omega)
    have hd' : pool ((ci + 1) + d) = true := by
      have heq : ci + 1 + d = ci + (d + 1) := by omega
      rw [heq]
      exact hd
    rw [ih (ci + 1) (nw + 1) (by omega) hp' hd']

/-- Every complete `_abort` run calls `end_log_output` exactly once. -/
theorem abortFrom_endOutputs (pool : Nat → Bool) :
    ∀ k ci nw, 31 - nw ≤ k → (abortFrom pool ci nw).endOutputs = 1 := by
  intro k
  induction k with
  | zero =>
    intro ci nw h1
    rw [abortFrom]
    by_cases hc : pool ci
    · simp [hc]
    · have h3 : nw > 30 := by omega
      simp [hc, h3]
  | succ k ih =>
    intro ci nw h1
    rw [abortFrom]
    by_cases hc : pool ci
    · simp [hc]
    · by_cases h3 : nw > 30
      · simp [hc, h3]
      · simp only [hc, Bool.false_eq_true, if_false, h3, ite_false]
        exact ih (ci + 1) (nw + 1) (by omega)

/-- An `_abort` attempt that completes without being interrupted calls
`end_log_output` exactly once. -/
theorem abortAttempt_ok_endOutputs (pool : Nat → Bool) (sig : Signal) :
    ∀ j ci nw o, abortAttempt pool sig j ci nw = Except.ok o →
      o.endOutputs = 1 := by
  intro j
  induction j with
  | zero =>
    intro ci nw o h
    simp [abortAttempt] at h
  | succ j ih =>
    intro ci nw o h
    rw [abortAttempt] at h
    by_cases hc : pool ci
    · simp [hc] at h
      simp [← h]
    · by_cases h3 : nw > 30
      · simp [hc, h3] at h
        simp [← h]
      · simp only [hc, Bool.false_eq_true, if_false, h3, ite_false] at h
        cases ha : abortAttempt pool sig j (ci + 1) (nw + 1) with
        | ok r =>
          rw [ha] at h
          simp at h
          have := ih (ci + 1) (nw + 1) r ha
          simp [← h, this]
        | error e =>
          rw [ha] at h
          simp at h

/-- `abort` always returns (no signal escapes), its final `_abort` attempt
ends log output exactly once, and at least one `end_log_output` call is
made in total. -/
theorem abortRun_ok (pool : Nat → Bool) :
    ∀ intrs ci nw acc, ∃ o total,
      abortRun pool intrs ci nw acc = Except.ok (o, total) ∧
      o.endOutputs = 1 ∧ acc + 1 ≤ total := by
  intro intrs
  induction intrs with
  | nil =>
    intro ci nw acc
    refine ⟨abortFrom pool ci nw, acc + (abortFrom pool ci nw).endOutputs, rfl, ?_, ?_⟩
    · exact abortFrom_endOutputs pool (31 - nw) ci nw (by omega)
    · have := abortFrom_endOutputs pool (31 - nw) ci nw (by omega)
      omega
  | cons p rest ih =>
    intro ci nw acc
    obtain ⟨j, sig⟩ := p
    cases ha : abortAttempt pool sig j ci nw with
    | ok o =>
      refine ⟨o, acc + o.endOutputs, ?_, ?_, ?_⟩
      · simp [abortRun, ha]
      · exact abortAttempt_ok_endOutputs pool sig j ci nw o ha
      · have := abortAttempt_ok_endOutputs pool sig j ci nw o ha
        omega
    | error e =>
      obtain ⟨s, ci', nw'⟩ := e
      obtain ⟨o, total, h1, h2, h3⟩ := ih ci' nw' acc
      refine ⟨o, total, ?_, h2, h3⟩
      cases s <;> simp [abortRun, ha, h1]

/-! ### Helper lemmas about `_log_url`'s event trace -/

/-- `_log_url` performs no cache mutation. -/
theorem log_url_events_countP_mutation (cfg : Config) (u : UrlData) :
    (log_url_events cfg u).countP isCheckedMutation = 0 := by
  rw [List.countP_eq_zero]
  intro e he
  simp only [log_url_events, List.mem_cons, List.mem_map] at he
  rcases he with rfl | ⟨i, _, rfl⟩ <;> simp [isCheckedMutation]

/-- Every event of `_log_url` is a `log_filter_url` call, so its trace
has `1 + |fileoutput|` log emissions: primary logger plus each sink. -/
theorem log_url_events_countP_log (cfg : Config) (u : UrlData) :
    (log_url_events cfg u).countP isLogEmission = 1 + cfg.fileoutput.length := by
  have h : (log_url_events cfg u).countP isLogEmission = (log_url_events cfg u).length := by
    rw [List.countP_eq_length]
    intro e he
    simp only [log_url_events, List.mem_cons, List.mem_map] at he
    rcases he with rfl | ⟨i, _, rfl⟩ <;> simp [isLogEmission]
  rw [h]
  simp [log_url_events]
  omega

/-- `_log_url(u)` forwards `u` to the primary logger exactly once. -/
theorem log_url_events_countP_primary (cfg : Config) (u : UrlData) :
    (log_url_events cfg u).countP (isPrimaryLogOf u) = 1 := by
  rw [log_url_events, List.countP_cons]
  have h : (cfg.fileoutput.map
      (fun i => LEvent.logFilterUrl (Sink.file i) u (do_print cfg u))).countP
        (isPrimaryLogOf u) = 0 := by
    rw [List.countP_eq_zero]
    intro e he
    simp only [List.mem_map] at he
    obtain ⟨i, _, rfl⟩ := he
    simp [isPrimaryLogOf]
  rw [h]
  simp [isPrimaryLogOf]

/-- `_log_url` dispatches no worker thread. -/
theorem log_url_events_countP_dispatch (cfg : Config) (u : UrlData) :
    (log_url_events cfg u).countP isDispatch = 0 := by
  rw [List.countP_eq_zero]
  intro e he
  simp only [log_url_events, List.mem_cons, List.mem_map] at he
  rcases he with rfl | ⟨i, _, rfl⟩ <;> simp [isDispatch]

/-- The `for` loop of `_log_url` computes: some warning tag is outside
`config["ignorewarnings"]`. -/
theorem hasWarningsLoop_iff (ignorewarnings : List String) :
    ∀ ws, hasWarningsLoop ignorewarnings ws = true ↔
      ∃ w, w ∈ ws ∧ ignorewarnings.contains w.1 = false := by
  intro ws
  induction ws with
  | nil => simp [hasWarningsLoop]
  | cons w rest ih =>
    obtain ⟨tag, content⟩ := w
    by_cases h : ignorewarnings.contains tag = true
    · simp only [hasWarningsLoop, h, if_true, ih, List.mem_cons]
      constructor
      · rintro ⟨w, hw, hc⟩
        exact ⟨w, Or.inr hw, hc⟩
      · rintro ⟨w, hw | hw, hc⟩
        · rw [hw] at hc
          rw [h] at hc
          cases hc
        · exact ⟨w, hw, hc⟩
    · have h' : ignorewarnings.contains tag = false := by
        revert h
        cases ignorewarnings.contains tag <;> simp
      simp only [hasWarningsLoop, h', Bool.false_eq_true, if_false, true_iff]
      exact ⟨(tag, content), List.mem_cons_self _ _, h'⟩

/-! ### The claims -/

/-- C1 (counterexample): on a pool that never finishes, the abort loop of
`_abort` runs 32 loop-body iterations (31 retries with `num_waited` going
0..30, then the body whose `num_waited > 30` check fires), not the 31 the
claim states. -/
theorem abort_loop_not_31_iterations :
    iterations (abortFrom neverFinished 0 0) ≠ 31 := by
  have h : abortFrom neverFinished 0 0 = ⟨31, true, 1, true⟩ := by
    have := abortFrom_timeout neverFinished 31 0 0 (by omega) (by omega) (fun i _ => rfl)
    simpa using this
  rw [h]
  decide

/-- C1 (amended): if the pool never finishes, the abort loop terminates
after exactly 32 iterations (31 retries plus the timeout check), logging
the fatal diagnostic and force-terminating log output; if the pool
finishes after `k ≤ 31` wait iterations, abort terminates after `k`
iterations with normal (non-timeout) logging termination; in every case
`end_log_output` is called exactly once. -/
theorem abort_loop_iterations_amended (k : Nat) :
    iterations (abortFrom neverFinished 0 0) = 32 ∧
    abortFrom neverFinished 0 0 = ⟨31, true, 1, true⟩ ∧
    abortFrom (finishedAfter k) 0 0 =
      (if k ≤ 31 then ⟨k, false, 1, false⟩ else ⟨31, true, 1, true⟩) := by
  have hnever : abortFrom neverFinished 0 0 = ⟨31, true, 1, true⟩ := by
    have := abortFrom_timeout neverFinished 31 0 0 (by omega) (by omega) (fun i _ => rfl)
    simpa using this
  refine ⟨by rw [hnever]; rfl, hnever, ?_⟩
  by_cases hk : k ≤ 31
  · rw [if_pos hk]
    apply abortFrom_normal (finishedAfter k) k 0 0 (by omega)
    · intro i hi
      simp only [finishedAfter, decide_eq_false_iff_not]
      omega
    · simp only [finishedAfter, decide_eq_true_eq]
      omega
  · rw [if_neg hk]
    have hp : ∀ i, 0 + i ≤ 31 → finishedAfter k (0 + i) = false := by
      intro i hi
      simp only [finishedAfter, decide_eq_false_iff_not]
      omega
    have := abortFrom_timeout (finishedAfter k) 31 0 0 (by omega) (by omega) hp
    simpa using this

/-- C2 (code_bug evidence): `finished` and `print_status` are wrapped by
`@synchronized(_lock)`, so in their traces the lock acquisition strictly
precedes the Worker Pool and Cache reads — the reads are not lock-free
reads performed before the lock is taken, contrary to the claim and to
the code's own comment "avoid deadlock by requesting cache data before
locking". -/
theorem finished_reads_happen_under_lock :
    finished_events = [LEvent.acquire, LEvent.threaderFinishedRead,
      LEvent.incomingLenRead, LEvent.release] ∧
    finished_events.indexOf LEvent.acquire <
      finished_events.indexOf LEvent.threaderFinishedRead ∧
    finished_events.indexOf LEvent.acquire <
      finished_events.indexOf LEvent.incomingLenRead ∧
    print_status_events.indexOf LEvent.acquire <
      print_status_events.indexOf LEvent.activeThreadsRead ∧
    print_status_events.indexOf LEvent.acquire <
      print_status_events.indexOf LEvent.incomingLenRead := by
  decide

/-- C3: `finished()` returns true iff the threader reports finished and
the cache's incoming queue length is 0. -/
theorem finished_value_iff (threaderFinished : Bool) (incomingLen : Nat) :
    finished_value threaderFinished incomingLen = true ↔
      (threaderFinished = true ∧ incomingLen = 0) := by
  cases threaderFinished <;> simp [finished_value]

/-- C4: in the trace of `checked(u)` the log emissions all occur strictly
before the cache mutation: the trace splits into a prefix with no
`checked_add`/`in_progress_remove` and at least one log emission, and a
suffix with no log emission and the cache mutation. -/
theorem checked_logs_before_cache_mutation (cfg : Config) (u : UrlData) :
    ∃ l₁ l₂, checked_events cfg u = l₁ ++ l₂ ∧
      l₁.countP isCheckedMutation = 0 ∧
      l₂.countP isLogEmission = 0 ∧
      0 < l₁.countP isLogEmission ∧
      0 < l₂.countP isCheckedMutation := by
  refine ⟨LEvent.acquire :: log_url_events cfg u,
    [if u.caching && !u.cached then LEvent.checkedAdd u
     else LEvent.inProgressRemove u false, LEvent.release], ?_, ?_, ?_, ?_, ?_⟩
  · simp [checked_events, synchronized, checked_body]
  · simp [List.countP_cons, log_url_events_countP_mutation, isCheckedMutation]
  · by_cases h : u.caching && !u.cached <;>
      simp [h, List.countP_cons, isLogEmission]
  · simp [List.countP_cons, log_url_events_countP_log, isLogEmission]
  · by_cases h : u.caching && !u.cached <;>
      simp [h, List.countP_cons, isCheckedMutation]

/-- C5: each `checked(u)` call performs exactly one cache mutation:
`checked_add(u)` precisely when `u.caching and not u.cached`, and
`in_progress_remove(u)` (without `ignore_missing`) otherwise. -/
theorem checked_cache_mutation_cases (cfg : Config) (u : UrlData) :
    (checked_events cfg u).countP isCheckedMutation = 1 ∧
    (LEvent.checkedAdd u ∈ checked_events cfg u ↔
      (u.caching = true ∧ u.cached = false)) ∧
    (LEvent.inProgressRemove u false ∈ checked_events cfg u ↔
      (u.caching = false ∨ u.cached = true)) := by
  refine ⟨?_, ?_, ?_⟩
  · cases hc : u.caching <;> cases hd : u.cached <;>
      simp [checked_events, synchronized, checked_body, List.countP_append,
        List.countP_cons, log_url_events_countP_mutation, isCheckedMutation, hc, hd]
  · cases hc : u.caching <;> cases hd : u.cached <;>
      simp [checked_events, synchronized, checked_body, log_url_events, hc, hd]
  · cases hc : u.caching <;> cases hd : u.cached <;>
      simp [checked_events, synchronized, checked_body, log_url_events, hc, hd]

/-- C6: in `append_url(u)`, when the cache admission `incoming_add`
returns false the item is forwarded to the primary logger exactly once
(and to every sink), when it returns true the item is not logged at all;
in neither case does `append_url` dispatch a worker thread. -/
theorem append_url_duplicate_logging (cfg : Config) (u : UrlData) (accepted : Bool) :
    (append_url_events cfg u accepted).countP (isPrimaryLogOf u) =
      (if accepted then 0 else 1) ∧
    (append_url_events cfg u accepted).countP isLogEmission =
      (if accepted then 0 else 1 + cfg.fileoutput.length) ∧
    (append_url_events cfg u accepted).countP isDispatch = 0 := by
  cases accepted <;>
    simp [append_url_events, synchronized, append_url_body, List.countP_cons,
      List.countP_append, isPrimaryLogOf, isLogEmission, isDispatch,
      log_url_events_countP_primary, log_url_events_countP_log,
      log_url_events_countP_dispatch]

/-- C7: `_log_url` computes `has_warnings` as "some warning tag is not in
`ignorewarnings`", computes `do_print` as verbose OR invalid OR
(`has_warnings` AND warnings-enabled), and forwards `(u, do_print)` to
the primary logger and then to every file-output sink in list order,
unconditionally (one `log_filter_url` call per sink even when `do_print`
is false). -/
theorem log_url_filter_decision (cfg : Config) (u : UrlData) :
    (hasWarningsLoop cfg.ignorewarnings u.warnings = true ↔
      ∃ w, w ∈ u.warnings ∧ cfg.ignorewarnings.contains w.1 = false) ∧
    (do_print cfg u = true ↔
      (cfg.verbose = true ∨ u.valid = false ∨
        (hasWarningsLoop cfg.ignorewarnings u.warnings = true ∧
          cfg.warnings = true))) ∧
    log_url_events cfg u =
      LEvent.logFilterUrl Sink.primary u (do_print cfg u) ::
        cfg.fileoutput.map
          (fun i => LEvent.logFilterUrl (Sink.file i) u (do_print cfg u)) ∧
    (log_url_events cfg u).countP isLogEmission = 1 + cfg.fileoutput.length := by
  refine ⟨hasWarningsLoop_iff cfg.ignorewarnings u.warnings, ?_, rfl,
    log_url_events_countP_log cfg u⟩
  simp only [do_print, Bool.or_eq_true, Bool.and_eq_true, Bool.not_eq_true']
  tauto

/-- C8 (counterexample): a sequence containing one public `log_url` call
ends with the counter at 1, while it contains no `checked` call and no
duplicate `append_url` call — so the claimed final value is violated. -/
theorem counter_final_value_counterexample :
    (applyOps ⟨0⟩ [Op.logUrl ⟨true, false, false, []⟩]).number ≠
      ([Op.logUrl ⟨true, false, false, []⟩].countP isChecked +
        [Op.logUrl ⟨true, false, false, []⟩].countP isAppendDup) := by
  decide

/-- Per-operation effect on `self._number`, as counted by the operation
classifiers. -/
theorem applyOp_number (s : ConsumerState) (op : Op) :
    (applyOp s op).number =
      s.number + (if isChecked op then 1 else 0) +
        (if isAppendDup op then 1 else 0) +
        (if isLogUrlOp op then 1 else 0) := by
  cases op <;>
    try (simp [applyOp, isChecked, isAppendDup, isLogUrlOp, log_url_state]; done)
  case appendUrl u accepted =>
    cases accepted <;>
      simp [applyOp, isChecked, isAppendDup, isLogUrlOp, log_url_state]

/-- C8 (amended): `_log_url` increments the counter by exactly 1, the
counter never decreases under any public operation, and after any
sequence of operations its final value equals the number of `checked`
calls plus the number of duplicate `append_url` calls plus the number of
public `log_url` calls. -/
theorem counter_accounting_amended (s : ConsumerState) (op : Op) (ops : List Op) :
    (log_url_state s).number = s.number + 1 ∧
    s.number ≤ (applyOp s op).number ∧
    (applyOps s ops).number =
      s.number + ops.countP isChecked + ops.countP isAppendDup +
        ops.countP isLogUrlOp := by
  refine ⟨rfl, ?_, ?_⟩
  · rw [applyOp_number s op]
    omega
  · induction ops generalizing s with
    | nil => simp [applyOps]
    | cons op' rest ih =>
      rw [applyOps, ih (applyOp s op'), applyOp_number s op']
      simp only [List.countP_cons]
      split_ifs <;> omega

/-- C9: for every pool schedule and every finite schedule of
cancellation/termination signals raised during the abort sequence,
`abort()` returns normally (no signal escapes to the caller) and its
final `_abort` attempt terminates logging output, with at least one
`end_log_output` call overall. -/
theorem abort_swallows_cancellation (pool : Nat → Bool)
    (intrs : List (Nat × Signal)) :
    ∃ o total, abortRun pool intrs 0 0 0 = Except.ok (o, total) ∧
      o.endOutputs = 1 ∧ 1 ≤ total := by
  obtain ⟨o, total, h1, h2, h3⟩ := abortRun_ok pool intrs 0 0 0
  exact ⟨o, total, h1, h2, by omega⟩

/-- C10: the constructor's observable trace is exactly that of
`start_log_output`, and the start-of-output events it emits are the
primary logger's followed by every file-output sink's in list order — so
output is started by construction, with no explicit caller invocation. -/
theorem init_emits_start_of_output (cfg : Config) :
    init_events cfg = start_log_output_events cfg ∧
    (init_events cfg).filter isStartOutput =
      LEvent.startOutput Sink.primary ::
        cfg.fileoutput.map (fun i => LEvent.startOutput (Sink.file i)) := by
  refine ⟨rfl, ?_⟩
  have h : ∀ (l : List Nat),
      (l.map (fun i => LEvent.startOutput (Sink.file i))).filter isStartOutput =
        l.map (fun i => LEvent.startOutput (Sink.file i)) := by
    intro l
    rw [List.filter_eq_self]
    intro e he
    simp only [List.mem_map] at he
    obtain ⟨i, _, rfl⟩ := he
    simp [isStartOutput]
  simp [init_events, start_log_output_events, synchronized, start_log_output_body,
    List.filter_cons, List.filter_append, isStartOutput, h]

end Consumer
